import Mathlib

/-!
Verification development for the Global Prosperity Barometer dashboard
(gpb-world.github.io). The data-aggregation and ranking layer is embedded
shallowly: JS numbers are exact rationals, JS objects are association lists
in insertion order, and the aggregation bodies of `renderGovernanceBar`,
`renderPeaceBar`, `renderGlobalEconBar`, `renderOverviewCards`,
`renderPillarCards` (src/js/app.js) and `_renderList`
(src/js/country-selector.js) are translated statement by statement. The
`Data` query facade itself (data.js) is not among the provided sources, so
its operations are modelled from the specification where noted.
-/

namespace GPB

/-- JS `Math.round` on an exact rational: round half towards positive
infinity, that is the floor of the value plus one half. -/
def jsRound (q : ℚ) : ℤ := ⌊q + 1 / 2⌋

/-- JS `toFixed(1)` on an exact rational, returned in tenths; the ECMA
rounding picks the larger candidate on ties, which is again the floor of
ten times the value plus one half. -/
def toFixed1 (q : ℚ) : ℤ := jsRound (q * 10)

/-- A country record as in the dataset: unique id, default display name,
and the mapping from pillar id to integer score, kept in declaration
order as an association list. -/
structure Country where
  id : String
  name : String
  scores : List (String × ℕ)
deriving DecidableEq

/-- Modelled from the spec: `Data.getOverallScore` is defined in the
repository's data.js, which is not among the provided source files. Per
spec section 4.2 it is the arithmetic mean of the pillar scores present in
`country.scores`, rounded to the nearest integer, and 0 for a country with
zero pillar scores. -/
def overallScore (c : Country) : ℤ :=
  if c.scores.isEmpty then 0
  else jsRound (((c.scores.map Prod.snd).sum : ℚ) / (c.scores.length : ℚ))

theorem jsRound_nonneg {q : ℚ} (h : 0 ≤ q) : 0 ≤ jsRound q := by
  have h1 : ((0 : ℤ) : ℚ) ≤ q + 1 / 2 := by push_cast; linarith
  simpa [jsRound] using Int.le_floor.mpr h1

theorem jsRound_le_hundred {q : ℚ} (h : q ≤ 100) : jsRound q ≤ 100 := by
  have h1 : ⌊q + 1 / 2⌋ < (101 : ℤ) := Int.floor_lt.mpr (by push_cast; linarith)
  unfold jsRound
  omega

theorem mean_le_hundred {l : List ℕ} (hb : ∀ x ∈ l, x ≤ 100) (hne : l ≠ []) :
    ((l.sum : ℚ) / (l.length : ℚ)) ≤ 100 := by
  have hlen : 0 < l.length := List.length_pos.mpr hne
  have hsum : l.sum ≤ l.length * 100 := by
    have := List.sum_le_card_nsmul l 100 hb
    simpa [smul_eq_mul] using this
  have hlenq : (0 : ℚ) < (l.length : ℚ) := by exact_mod_cast hlen
  rw [div_le_iff₀ hlenq]
  have : (l.sum : ℚ) ≤ (l.length : ℚ) * 100 := by exact_mod_cast hsum
  linarith

/-- C1: for every country whose pillar scores all lie in [0,100],
`overallScore` (the spec's `Data.getOverallScore`) is an integer in
[0,100]; when the country has at least one pillar score it equals the JS
rounding of the arithmetic mean of the scores present, and when the
country has zero pillar scores it is exactly 0, not an error. -/
theorem overallScore_spec (c : Country) (hb : ∀ p ∈ c.scores, p.2 ≤ 100) :
    0 ≤ overallScore c ∧ overallScore c ≤ 100 ∧
    (c.scores = [] → overallScore c = 0) ∧
    (c.scores ≠ [] → overallScore c =
      jsRound (((c.scores.map Prod.snd).sum : ℚ) / (c.scores.length : ℚ))) := by
  by_cases he : c.scores = []
  · refine ⟨?_, ?_, fun _ => ?_, fun hne => absurd he hne⟩ <;>
      simp [overallScore, he]
  · have hval : ∀ x ∈ c.scores.map Prod.snd, x ≤ 100 := by
      intro x hx
      rcases List.mem_map.mp hx with ⟨p, hp, rfl⟩
      exact hb p hp
    have hmapne : c.scores.map Prod.snd ≠ [] := by
      simpa [List.map_eq_nil_iff] using he
    have hub := mean_le_hundred hval hmapne
    have hlen : 0 < c.scores.length := List.length_pos.mpr he
    have hlenq : (0 : ℚ) < (c.scores.length : ℚ) := by exact_mod_cast hlen
    have hlb : (0 : ℚ) ≤ ((c.scores.map Prod.snd).sum : ℚ) / (c.scores.length : ℚ) := by
      positivity
    have hemp : c.scores.isEmpty = false := by
      simp [List.isEmpty_iff, he]
    have hov : overallScore c =
        jsRound (((c.scores.map Prod.snd).sum : ℚ) / (c.scores.length : ℚ)) := by
      simp [overallScore, hemp]
    refine ⟨?_, ?_, fun habs => absurd habs he, fun _ => hov⟩
    · rw [hov]
      exact jsRound_nonneg (by simpa [List.length_map] using hlb)
    · rw [hov]
      exact jsRound_le_hundred (by simpa [List.length_map] using hub)

/-- A fixed sample country used to instantiate hypothesis-bearing theorems. -/
def c₀ : Country := ⟨"aa", "Aland", [("governance", 80), ("economy", 60)]⟩

/-- C1 witness: `overallScore_spec` instantiated at the sample country. -/
theorem overallScore_spec_witness :
    (∀ p ∈ c₀.scores, p.2 ≤ 100) ∧
    (0 ≤ overallScore c₀ ∧ overallScore c₀ ≤ 100 ∧
      (c₀.scores = [] → overallScore c₀ = 0) ∧
      (c₀.scores ≠ [] → overallScore c₀ =
        jsRound (((c₀.scores.map Prod.snd).sum : ℚ) / (c₀.scores.length : ℚ)))) :=
  ⟨by decide, overallScore_spec c₀ (by decide)⟩

/-- Modelled from the spec: the per-pillar owner multiset behind
`Data.getGlobalAverages` (data.js, not among the provided sources) — the
scores of exactly those countries that have a score for the pillar. -/
def pillarOwners (countries : List Country) (pid : String) : List ℕ :=
  countries.filterMap (fun c => c.scores.lookup pid)

/-- Modelled from the spec: `Data.getGlobalAverages` (data.js, not among
the provided sources). Per spec section 4.2, for each pillar the mean of
that pillar's score across all countries that have a score for it,
rounded to the nearest integer; a pillar defined by zero countries
yields 0. -/
def globalAverage (countries : List Country) (pid : String) : ℤ :=
  if (pillarOwners countries pid).isEmpty then 0
  else jsRound (((pillarOwners countries pid).sum : ℚ) /
    ((pillarOwners countries pid).length : ℚ))

/-- C2: `globalAverage` for pillar P is the rounded mean over exactly the
countries that define P: appending a country with no score for P leaves
both the owner list and the average unchanged (the missing country enters
neither numerator nor denominator), a pillar defined by zero countries
yields 0, and otherwise the value is the JS rounding of the owners'
mean. -/
theorem globalAverage_spec (countries : List Country) (pid : String)
    (c : Country) (hc : c.scores.lookup pid = none) :
    pillarOwners (countries ++ [c]) pid = pillarOwners countries pid ∧
    globalAverage (countries ++ [c]) pid = globalAverage countries pid ∧
    (pillarOwners countries pid = [] → globalAverage countries pid = 0) ∧
    (pillarOwners countries pid ≠ [] → globalAverage countries pid =
      jsRound (((pillarOwners countries pid).sum : ℚ) /
        ((pillarOwners countries pid).length : ℚ))) := by
  have howners : pillarOwners (countries ++ [c]) pid = pillarOwners countries pid := by
    simp [pillarOwners, List.filterMap_append, hc]
  refine ⟨howners, by simp [globalAverage, howners], ?_, ?_⟩
  · intro hnil
    simp [globalAverage, hnil]
  · intro hne
    have hemp : (pillarOwners countries pid).isEmpty = false := by
      simp [List.isEmpty_iff, hne]
    simp [globalAverage, hemp]

/-- A second sample country, which has no score for pillar "economy". -/
def c₁ : Country := ⟨"bb", "Borduria", [("governance", 40)]⟩

/-- C2 witness: `globalAverage_spec` instantiated at a two-country store
and the pillar "economy", which `c₁` does not define. -/
theorem globalAverage_spec_witness :
    c₁.scores.lookup ("economy") = none ∧
    (pillarOwners ([c₀] ++ [c₁]) ("economy") = pillarOwners [c₀] ("economy") ∧
      globalAverage ([c₀] ++ [c₁]) ("economy") = globalAverage [c₀] ("economy") ∧
      (pillarOwners [c₀] ("economy") = [] → globalAverage [c₀] ("economy") = 0) ∧
      (pillarOwners [c₀] ("economy") ≠ [] → globalAverage [c₀] ("economy") =
        jsRound (((pillarOwners [c₀] ("economy")).sum : ℚ) /
          ((pillarOwners [c₀] ("economy")).length : ℚ)))) :=
  ⟨by decide, globalAverage_spec [c₀] ("economy") c₁ (by decide)⟩

/-- A derived ranking entry: country id, localized display name, score. -/
structure RankEntry where
  id : String
  name : String
  score : ℤ
deriving DecidableEq

/-- Modelled from the spec: the score dimension used by `Data.getRanking`
(data.js, not among the provided sources) — `overallScore` for the
sentinel "overall", else the country's score for the pillar with 0
substituted when absent. -/
def rankScore (pid : String) (c : Country) : ℤ :=
  if pid = "overall" then overallScore c
  else ((c.scores.lookup pid).getD 0 : ℕ)

/-- The comparator of the ranking sort: score descending, ties broken by
the locale-aware name comparison `le` ascending. -/
def rankLE (le : String → String → Bool) (a b : RankEntry) : Bool :=
  decide (b.score < a.score) || (decide (a.score = b.score) && le a.name b.name)

/-- Modelled from the spec: `Data.getRanking` (data.js, not among the
provided sources). Per spec section 4.2 it maps every country to
{id, name, score} with the localized name and sorts by score descending,
ties broken by localized name ascending under the locale-aware
comparison. -/
def ranking (locName : Country → String) (le : String → String → Bool)
    (countries : List Country) (pid : String) : List RankEntry :=
  (countries.map (fun c => ⟨c.id, locName c, rankScore pid c⟩)).mergeSort (rankLE le)

theorem rankLE_trans (le : String → String → Bool)
    (htrans : ∀ a b c, le a b = true → le b c = true → le a c = true)
    (a b c : RankEntry) (hab : rankLE le a b = true) (hbc : rankLE le b c = true) :
    rankLE le a c = true := by
  simp only [rankLE, Bool.or_eq_true, Bool.and_eq_true, decide_eq_true_eq] at *
  rcases hab with h1 | ⟨h1, h1n⟩ <;> rcases hbc with h2 | ⟨h2, h2n⟩
  · exact Or.inl (lt_trans h2 h1)
  · exact Or.inl (h2 ▸ h1)
  · exact Or.inl (h1 ▸ h2)
  · exact Or.inr ⟨h1.trans h2, htrans _ _ _ h1n h2n⟩

theorem rankLE_total (le : String → String → Bool)
    (htot : ∀ a b, (le a b || le b a) = true) (a b : RankEntry) :
    (rankLE le a b || rankLE le b a) = true := by
  simp only [rankLE, Bool.or_eq_true, Bool.and_eq_true, decide_eq_true_eq]
  rcases lt_trichotomy a.score b.score with h | h | h
  · exact Or.inr (Or.inl h)
  · rcases Bool.or_eq_true _ _ |>.mp (htot a.name b.name) with hn | hn
    · exact Or.inl (Or.inr ⟨h, hn⟩)
    · exact Or.inr (Or.inr ⟨h.symm, hn⟩)
  · exact Or.inl (Or.inl h)

theorem rankLE_elim (le : String → String → Bool) (a b : RankEntry)
    (h : rankLE le a b = true) :
    b.score ≤ a.score ∧ (a.score = b.score → le a.name b.name = true) := by
  simp only [rankLE, Bool.or_eq_true, Bool.and_eq_true, decide_eq_true_eq] at h
  rcases h with h | ⟨h, hn⟩
  · exact ⟨le_of_lt h, fun heq => absurd (heq ▸ h) (lt_irrefl _)⟩
  · exact ⟨le_of_eq h.symm, fun _ => hn⟩

/-- C3: for every pillar id (or the sentinel "overall"), `ranking` is a
permutation of the {id, name, score} images of the countries — in
particular its length is the country count — it is pairwise sorted
non-increasing by score with ties broken by ascending localized name
under the locale-aware comparison, and each entry's score is
`overallScore` for the sentinel "overall" and otherwise the country's
score for the pillar with 0 substituted when absent. -/
theorem ranking_spec (locName : Country → String) (le : String → String → Bool)
    (countries : List Country) (pid : String)
    (htrans : ∀ a b c, le a b = true → le b c = true → le a c = true)
    (htot : ∀ a b, (le a b || le b a) = true) :
    (ranking locName le countries pid).Perm
      (countries.map (fun c => ⟨c.id, locName c, rankScore pid c⟩)) ∧
    (ranking locName le countries pid).length = countries.length ∧
    (ranking locName le countries pid).Pairwise
      (fun a b => b.score ≤ a.score ∧ (a.score = b.score → le a.name b.name = true)) ∧
    (pid = "overall" → ∀ c, rankScore pid c = overallScore c) ∧
    (pid ≠ "overall" → ∀ c, rankScore pid c = ((c.scores.lookup pid).getD 0 : ℕ)) := by
  refine ⟨List.mergeSort_perm _ _, ?_, ?_, ?_, ?_⟩
  · simp [ranking, List.length_mergeSort]
  · have hs := @List.sorted_mergeSort RankEntry (rankLE le)
      (rankLE_trans le htrans) (rankLE_total le htot)
      (countries.map (fun c => ⟨c.id, locName c, rankScore pid c⟩))
    exact List.Pairwise.imp (rankLE_elim le _ _) hs
  · intro h c
    simp [rankScore, h]
  · intro h c
    simp [rankScore, h]

/-- A concrete stand-in for the locale-aware comparison, used only to
instantiate hypothesis-bearing theorems: the lexicographic order on
strings. -/
def sLE (a b : String) : Bool := decide (a ≤ b)

theorem sLE_trans : ∀ a b c, sLE a b = true → sLE b c = true → sLE a c = true := by
  intro a b c hab hbc
  simp only [sLE, decide_eq_true_eq] at *
  exact le_trans hab hbc

theorem sLE_total : ∀ a b, (sLE a b || sLE b a) = true := by
  intro a b
  simp only [sLE, Bool.or_eq_true, decide_eq_true_eq]
  exact le_total a b

/-- C3 witness: `ranking_spec` instantiated at the sample countries, the
sentinel "overall" and the concrete comparison `sLE`. -/
theorem ranking_spec_witness :
    (∀ a b c, sLE a b = true → sLE b c = true → sLE a c = true) ∧
    (∀ a b, (sLE a b || sLE b a) = true) ∧
    ((ranking Country.name sLE [c₀, c₁] ("overall")).Perm
      ([c₀, c₁].map (fun c => ⟨c.id, c.name, rankScore ("overall") c⟩)) ∧
    (ranking Country.name sLE [c₀, c₁] ("overall")).length = [c₀, c₁].length ∧
    (ranking Country.name sLE [c₀, c₁] ("overall")).Pairwise
      (fun a b => b.score ≤ a.score ∧ (a.score = b.score → sLE a.name b.name = true)) ∧
    (("overall" : String) = "overall" → ∀ c, rankScore ("overall") c = overallScore c) ∧
    (("overall" : String) ≠ "overall" → ∀ c, rankScore ("overall") c =
      ((c.scores.lookup ("overall")).getD 0 : ℕ))) :=
  ⟨sLE_trans, sLE_total,
    ranking_spec Country.name sLE [c₀, c₁] ("overall") sLE_trans sLE_total⟩

/-- A pillar record: id plus the display fields used by the renderers. -/
structure Pillar where
  id : String
  name_key : String
  desc_key : String
  icon : String
  color : String
deriving DecidableEq

/-- An economics record keyed by country id, with numeric fields as exact
rationals and the two categorical percentage breakdowns as association
lists. -/
structure EconomicsRecord where
  gdp : ℚ
  gdp_per_capita : ℚ
  gni_per_capita : ℚ
  inflation : ℚ
  unemployment : ℚ
  public_debt_pct : ℚ
  revenue : List (String × ℚ)
  expenditure : List (String × ℚ)
deriving DecidableEq

/-- A politics record keyed by country id. The regime and conflict-status
fields are kept as strings, as in the dataset, so that the enum-membership
hypotheses of the claims are genuine hypotheses. -/
structure PoliticsRecord where
  regime : String
  system : String
  conflict_status : String
  democracy_score : ℚ
  corruption_rank : ℕ
  press_freedom_rank : ℕ
deriving DecidableEq

/-- The loaded, immutable dataset store: countries and pillars in
declaration order, economics and politics keyed by country id. -/
structure Store where
  countries : List Country
  pillars : List Pillar
  economics : List (String × EconomicsRecord)
  politics : List (String × PoliticsRecord)
deriving DecidableEq

/-- Modelled from the spec: `Data.getEconomics` (data.js, not among the
provided sources) returns the record for the id or an explicit not-found
result, modelled as an association-list lookup into the store. -/
def getEconomics (s : Store) (id : String) : Option EconomicsRecord :=
  s.economics.lookup id

/-- Embedded from `renderGlobalEconBar` (src/js/app.js lines 150-151):
`countries.map(c => Data.getEconomics(c.id)).filter(Boolean)` — the
economics records of exactly those countries that have one. -/
def allEcon (s : Store) : List EconomicsRecord :=
  s.countries.filterMap (fun c => getEconomics s c.id)

/-- The global economic aggregates of `renderGlobalEconBar`: record count,
total GDP, and the four averages, with the `toFixed(1)` displays kept in
tenths. -/
structure GlobalEconStats where
  n : ℕ
  totalGdp : ℚ
  avgInflationTenths : ℤ
  avgUnemploymentTenths : ℤ
  avgDebtTenths : ℤ
  avgGdpCap : ℤ
deriving DecidableEq

/-- Embedded from `renderGlobalEconBar` (src/js/app.js lines 154-159): the
sum of `gdp` and the per-record means of the other fields, each divided by
the number of present records. -/
def renderGlobalEconStats (s : Store) : GlobalEconStats :=
  { n := (allEcon s).length
    totalGdp := ((allEcon s).map EconomicsRecord.gdp).sum
    avgInflationTenths :=
      toFixed1 (((allEcon s).map EconomicsRecord.inflation).sum / ((allEcon s).length : ℚ))
    avgUnemploymentTenths :=
      toFixed1 (((allEcon s).map EconomicsRecord.unemployment).sum / ((allEcon s).length : ℚ))
    avgDebtTenths :=
      toFixed1 (((allEcon s).map EconomicsRecord.public_debt_pct).sum / ((allEcon s).length : ℚ))
    avgGdpCap :=
      jsRound (((allEcon s).map EconomicsRecord.gdp_per_capita).sum / ((allEcon s).length : ℚ)) }

theorem length_filterMap_eq_length_filter {α β : Type} (f : α → Option β) (l : List α) :
    (l.filterMap f).length = (l.filter (fun a => (f a).isSome)).length := by
  induction l with
  | nil => rfl
  | cons a t ih =>
    cases h : f a <;> simp [List.filterMap_cons, List.filter_cons, h, ih]

/-- C4: the global economic aggregates are computed over exactly the
countries that have an economics record — the denominator is the number
of countries whose record is present, and appending a country with no
economics record changes neither the record list nor any aggregate (it is
excluded from numerator and denominator, never treated as zero). -/
theorem econAggregate_excludes_missing (s : Store) (c : Country)
    (hc : s.economics.lookup c.id = none) :
    (allEcon s).length =
      (s.countries.filter (fun c => (getEconomics s c.id).isSome)).length ∧
    allEcon { s with countries := s.countries ++ [c] } = allEcon s ∧
    renderGlobalEconStats { s with countries := s.countries ++ [c] } =
      renderGlobalEconStats s := by
  have hall : allEcon { s with countries := s.countries ++ [c] } = allEcon s := by
    simp [allEcon, List.filterMap_append, getEconomics, hc]
  exact ⟨length_filterMap_eq_length_filter _ _, hall,
    by simp [renderGlobalEconStats, hall]⟩

/-- A sample economics record. -/
def e₀ : EconomicsRecord :=
  ⟨1000, 20000, 19000, 3.2, 5.1, 60.5,
    [("taxes", 70), ("social_contributions", 20), ("grants", 5), ("other", 5)],
    [("social_protection", 30), ("health", 20), ("education", 15), ("defense", 10),
      ("infrastructure", 10), ("public_services", 8), ("debt_service", 5), ("other", 2)]⟩

/-- A sample store: two countries, an economics and a politics record for
`c₀` only, so `c₁` has no economics record. -/
def s₀ : Store :=
  ⟨[c₀], [⟨"governance", "p.gov", "d.gov", "g", "#111111"⟩,
      ⟨"economy", "p.eco", "d.eco", "e", "#222222"⟩],
    [("aa", e₀)],
    [("aa", ⟨"full_democracy", "parliamentary", "peace", 8.1, 20, 15⟩)]⟩

/-- C4 witness: `econAggregate_excludes_missing` instantiated at the
sample store and the record-less country `c₁`. -/
theorem econAggregate_excludes_missing_witness :
    s₀.economics.lookup c₁.id = none ∧
    ((allEcon s₀).length =
      (s₀.countries.filter (fun c => (getEconomics s₀ c.id).isSome)).length ∧
    allEcon { s₀ with countries := s₀.countries ++ [c₁] } = allEcon s₀ ∧
    renderGlobalEconStats { s₀ with countries := s₀.countries ++ [c₁] } =
      renderGlobalEconStats s₀) :=
  ⟨by decide, econAggregate_excludes_missing s₀ c₁ (by decide)⟩

/-- Read of a JS object property, modelled on an insertion-ordered
association list. -/
def objGet {α : Type} (o : List (String × α)) (k : String) : Option α :=
  o.lookup k

/-- Write of a JS object property: an existing key keeps its position and
gets the new value; a new key is appended at the end, as JS objects
preserve insertion order. -/
def objSet {α : Type} : List (String × α) → String → α → List (String × α)
  | [], k, v => [(k, v)]
  | (k', v') :: rest, k, v =>
    if k' = k then (k', v) :: rest else (k', v') :: objSet rest k v

/-- The four regime enum values, in the order of `regimeKeys` in
`renderGovernanceBar` (src/js/app.js line 55). -/
def regimeKeys : List String :=
  [("full_democracy"), ("flawed_democracy"), ("hybrid_regime"), ("authoritarian")]

/-- Embedded from `renderGovernanceBar` (src/js/app.js line 46): the
counts object initialized with all four regime keys at 0. -/
def regimesInit : List (String × ℕ) := regimeKeys.map (fun k => (k, 0))

/-- Embedded from `renderGovernanceBar` (src/js/app.js lines 48-51):
`regimes[p.regime] = (regimes[p.regime] || 0) + 1` folded over the
politics entries. -/
def countRegimes (entries : List PoliticsRecord) : List (String × ℕ) :=
  entries.foldl
    (fun o p => objSet o p.regime ((objGet o p.regime).getD 0 + 1)) regimesInit

/-- The count displayed for one regime category. -/
def regimeCount (entries : List PoliticsRecord) (k : String) : ℕ :=
  (objGet (countRegimes entries) k).getD 0

/-- Embedded from `renderGovernanceBar` (src/js/app.js line 58): the bar
segment percentage `(regimes[k] / total * 100).toFixed(1)`, in tenths. -/
def regimePctTenths (entries : List PoliticsRecord) (k : String) : ℤ :=
  toFixed1 ((regimeCount entries k : ℚ) / (entries.length : ℚ) * 100)

theorem mem_keys_tail {α : Type} {k ak : String} {av : α} {rest : List (String × α)}
    (hk : k ∈ ((ak, av) :: rest).map Prod.fst) (h : ¬ak = k) :
    k ∈ rest.map Prod.fst := by
  simp only [List.map_cons, List.mem_cons] at hk
  rcases hk with heq | hm
  · exact absurd heq.symm h
  · exact hm

theorem objSet_keys_of_mem {α : Type} (o : List (String × α)) (k : String) (v : α)
    (hk : k ∈ o.map Prod.fst) :
    (objSet o k v).map Prod.fst = o.map Prod.fst := by
  induction o with
  | nil => simp at hk
  | cons a rest ih =>
    obtain ⟨ak, av⟩ := a
    by_cases h : ak = k
    · simp [objSet, h]
    · simp [objSet, h, ih (mem_keys_tail hk h)]

theorem vsum_objSet_incr (o : List (String × ℕ)) (k : String)
    (hk : k ∈ o.map Prod.fst) :
    ((objSet o k ((objGet o k).getD 0 + 1)).map Prod.snd).sum =
      (o.map Prod.snd).sum + 1 := by
  induction o with
  | nil => simp at hk
  | cons a rest ih =>
    obtain ⟨ak, av⟩ := a
    by_cases h : ak = k
    · subst h
      have hget : objGet ((ak, av) :: rest) ak = some av := by
        simp [objGet, List.lookup_cons]
      simp [objSet, hget]
      omega
    · have hne : (k == ak) = false := by
        simp [beq_eq_false_iff_ne]
        exact fun he => h he.symm
      have hget : objGet ((ak, av) :: rest) k = objGet rest k := by
        simp [objGet, List.lookup_cons, hne]
      simp only [objSet, if_neg h, List.map_cons, List.sum_cons, hget]
      rw [ih (mem_keys_tail hk h)]
      omega

theorem sum_lookups_eq_vsum (o : List (String × ℕ))
    (hnd : (o.map Prod.fst).Nodup) :
    ((o.map Prod.fst).map (fun k => (objGet o k).getD 0)).sum =
      (o.map Prod.snd).sum := by
  induction o with
  | nil => rfl
  | cons a rest ih =>
    obtain ⟨ak, av⟩ := a
    rw [List.map_cons] at hnd
    rcases List.nodup_cons.mp hnd with ⟨hnin, hnd'⟩
    have hself : objGet ((ak, av) :: rest) ak = some av := by
      simp [objGet, List.lookup_cons]
    have hrest : ∀ k ∈ rest.map Prod.fst,
        (objGet ((ak, av) :: rest) k).getD 0 = (objGet rest k).getD 0 := by
      intro k hkm
      have hne : (k == ak) = false := by
        simp [beq_eq_false_iff_ne]
        exact fun he => hnin (he ▸ hkm)
      simp [objGet, List.lookup_cons, hne]
    calc ((((ak, av) :: rest).map Prod.fst).map
          (fun k => (objGet ((ak, av) :: rest) k).getD 0)).sum
        = av + ((rest.map Prod.fst).map
            (fun k => (objGet ((ak, av) :: rest) k).getD 0)).sum := by
          simp [hself]
      _ = av + ((rest.map Prod.fst).map (fun k => (objGet rest k).getD 0)).sum := by
          rw [List.map_congr_left hrest]
      _ = av + (rest.map Prod.snd).sum := by rw [ih hnd']
      _ = (((ak, av) :: rest).map Prod.snd).sum := by simp

theorem countRegimes_foldl_invariant (entries : List PoliticsRecord)
    (h : ∀ p ∈ entries, p.regime ∈ regimeKeys) :
    ∀ o : List (String × ℕ), o.map Prod.fst = regimeKeys →
      (entries.foldl
        (fun o p => objSet o p.regime ((objGet o p.regime).getD 0 + 1)) o).map
          Prod.fst = regimeKeys ∧
      ((entries.foldl
        (fun o p => objSet o p.regime ((objGet o p.regime).getD 0 + 1)) o).map
          Prod.snd).sum = (o.map Prod.snd).sum + entries.length := by
  induction entries with
  | nil => intro o ho; simpa using ho
  | cons p rest ih =>
    intro o ho
    have hp : p.regime ∈ o.map Prod.fst := by
      rw [ho]; exact h p (List.mem_cons_self p rest)
    have hrest : ∀ q ∈ rest, q.regime ∈ regimeKeys := fun q hq =>
      h q (List.mem_cons_of_mem p hq)
    have hkeys := objSet_keys_of_mem o p.regime ((objGet o p.regime).getD 0 + 1) hp
    have := ih hrest (objSet o p.regime ((objGet o p.regime).getD 0 + 1))
      (hkeys.trans ho)
    refine ⟨this.1, ?_⟩
    rw [List.foldl_cons, this.2, vsum_objSet_incr o p.regime hp]
    simp
    omega

/-- C5: when every politics record's regime lies in the four-member enum,
the four counts of the regime distribution sum exactly to the number of
politics records, and each category's displayed percentage is the
count divided by the total, as a percentage rounded to one decimal
place. -/
theorem regimeDistribution_spec (entries : List PoliticsRecord)
    (h : ∀ p ∈ entries, p.regime ∈ regimeKeys) :
    (regimeKeys.map (regimeCount entries)).sum = entries.length ∧
    ∀ k ∈ regimeKeys, regimePctTenths entries k =
      toFixed1 ((regimeCount entries k : ℚ) / (entries.length : ℚ) * 100) := by
  have hinit : regimesInit.map Prod.fst = regimeKeys := by decide
  have hinv := countRegimes_foldl_invariant entries h regimesInit hinit
  have hkeys : (countRegimes entries).map Prod.fst = regimeKeys := hinv.1
  have hnd : ((countRegimes entries).map Prod.fst).Nodup := by
    rw [hkeys]; decide
  have hsum := sum_lookups_eq_vsum (countRegimes entries) hnd
  rw [hkeys] at hsum
  have hinitsum : (regimesInit.map Prod.snd).sum = 0 := by decide
  refine ⟨?_, fun k _ => rfl⟩
  calc (regimeKeys.map (regimeCount entries)).sum
      = ((countRegimes entries).map Prod.snd).sum := hsum
    _ = (regimesInit.map Prod.snd).sum + entries.length := hinv.2
    _ = entries.length := by rw [hinitsum]; omega

/-- Sample politics records covering several regime categories. -/
def pols₀ : List PoliticsRecord :=
  [⟨"full_democracy", "parliamentary", "peace", 8.1, 20, 15⟩,
    ⟨"authoritarian", "one_party", "war", 2.0, 150, 160⟩,
    ⟨"full_democracy", "presidential", "tension", 7.5, 30, 25⟩]

/-- C5 witness: `regimeDistribution_spec` instantiated at the sample
politics records. -/
theorem regimeDistribution_spec_witness :
    (∀ p ∈ pols₀, p.regime ∈ regimeKeys) ∧
    ((regimeKeys.map (regimeCount pols₀)).sum = pols₀.length ∧
    ∀ k ∈ regimeKeys, regimePctTenths pols₀ k =
      toFixed1 ((regimeCount pols₀ k : ℚ) / (pols₀.length : ℚ) * 100)) :=
  ⟨by decide, regimeDistribution_spec pols₀ (by decide)⟩

/-- The five conflict-status enum values, in the order of `statusKeys` in
`renderPeaceBar` (src/js/app.js line 109). -/
def statusKeys : List String :=
  [("peace"), ("tension"), ("minor_conflict"), ("major_conflict"), ("war")]

/-- Embedded from `renderPeaceBar` (src/js/app.js line 101): the conflicts
object initialized with all five status keys at the empty list. -/
def conflictsInit : List (String × List String) := statusKeys.map (fun k => (k, []))

/-- Embedded from `renderPeaceBar` (src/js/app.js lines 102-105):
`conflicts[p.conflict_status] = conflicts[p.conflict_status] || []` then
`push(id)`, folded over the politics entries. -/
def countConflicts (entries : List (String × PoliticsRecord)) :
    List (String × List String) :=
  entries.foldl
    (fun o e => objSet o e.2.conflict_status
      ((objGet o e.2.conflict_status).getD [] ++ [e.1])) conflictsInit

theorem objSet_keys_mono {α : Type} (o : List (String × α)) (k k' : String) (v : α)
    (hk : k' ∈ o.map Prod.fst) : k' ∈ (objSet o k v).map Prod.fst := by
  induction o with
  | nil => simp at hk
  | cons a rest ih =>
    obtain ⟨ak, av⟩ := a
    by_cases h : ak = k
    · simpa [objSet, h] using hk
    · simp only [List.map_cons, List.mem_cons] at hk
      rcases hk with heq | hm
      · simp [objSet, h, heq]
      · simp only [objSet, if_neg h, List.map_cons, List.mem_cons]
        exact Or.inr (ih hm)

theorem mem_keys_foldl_objSet {α β : Type} (f : β → String)
    (g : List (String × α) → β → α) (entries : List β) (k : String) :
    ∀ o : List (String × α), k ∈ o.map Prod.fst →
      k ∈ (entries.foldl (fun o e => objSet o (f e) (g o e)) o).map Prod.fst := by
  induction entries with
  | nil => intro o hk; simpa using hk
  | cons e rest ih =>
    intro o hk
    rw [List.foldl_cons]
    exact ih _ (objSet_keys_mono o (f e) k (g o e) hk)

theorem objGet_isSome_of_mem {α : Type} (o : List (String × α)) (k : String)
    (hk : k ∈ o.map Prod.fst) : (objGet o k).isSome = true := by
  induction o with
  | nil => simp at hk
  | cons a rest ih =>
    obtain ⟨ak, av⟩ := a
    by_cases h : k = ak
    · simp [objGet, List.lookup_cons, h]
    · have hne : (k == ak) = false := by simp [beq_eq_false_iff_ne, h]
      simp only [List.map_cons, List.mem_cons] at hk
      rcases hk with heq | hm
      · exact absurd heq h
      · simpa [objGet, List.lookup_cons, hne] using ih hm

/-- C6: the regime distribution and the conflict distribution keep a count
for every member of their respective enums — for any politics entries
whatsoever, every one of the four regime keys and every one of the five
conflict-status keys is present in the resulting object, including
members with zero occurrences. -/
theorem distributions_cover_enum (pentries : List PoliticsRecord)
    (centries : List (String × PoliticsRecord)) :
    (∀ k ∈ regimeKeys, (objGet (countRegimes pentries) k).isSome = true) ∧
    (∀ k ∈ statusKeys, (objGet (countConflicts centries) k).isSome = true) := by
  constructor
  · intro k hk
    have hinit : k ∈ regimesInit.map Prod.fst := by
      simpa [regimesInit, List.map_map, Function.comp] using hk
    have hmem := mem_keys_foldl_objSet (fun p : PoliticsRecord => p.regime)
      (fun o p => (objGet o p.regime).getD 0 + 1) pentries k regimesInit hinit
    exact objGet_isSome_of_mem _ k (by simpa [countRegimes] using hmem)
  · intro k hk
    have hinit : k ∈ conflictsInit.map Prod.fst := by
      simpa [conflictsInit, List.map_map, Function.comp] using hk
    have hmem := mem_keys_foldl_objSet
      (fun e : String × PoliticsRecord => e.2.conflict_status)
      (fun o e => (objGet o e.2.conflict_status).getD [] ++ [e.1])
      centries k conflictsInit hinit
    exact objGet_isSome_of_mem _ k (by simpa [countConflicts] using hmem)

/-- Sample politics entries keyed by id, with no record in status
"minor_conflict". -/
def cents₀ : List (String × PoliticsRecord) :=
  [("aa", ⟨"full_democracy", "parliamentary", "peace", 8.1, 20, 15⟩),
    ("bb", ⟨"authoritarian", "one_party", "war", 2.0, 150, 160⟩)]

/-- C6 witness: `distributions_cover_enum` instantiated at the sample
entries, checked at a regime key with no occurrence ("hybrid_regime") and
a status key with no occurrence ("minor_conflict"). -/
theorem distributions_cover_enum_witness :
    (("hybrid_regime" : String) ∈ regimeKeys ∧
      (objGet (countRegimes pols₀) ("hybrid_regime")).isSome = true) ∧
    (("minor_conflict" : String) ∈ statusKeys ∧
      (objGet (countConflicts cents₀) ("minor_conflict")).isSome = true) :=
  ⟨⟨by decide, (distributions_cover_enum pols₀ cents₀).1 _ (by decide)⟩,
    ⟨by decide, (distributions_cover_enum pols₀ cents₀).2 _ (by decide)⟩⟩

/-- Embedded from `_renderList` (src/js/country-selector.js lines 86-103):
every country is mapped to {id, localized name, overall score} and the
list is sorted with the comparator `a.name.localeCompare(b.name, lang)`,
modelled by the locale-aware comparison `le` on names. -/
def selectorList (locName : Country → String) (le : String → String → Bool)
    (countries : List Country) : List RankEntry :=
  (countries.map (fun c => ⟨c.id, locName c, overallScore c⟩)).mergeSort
    (fun a b => le a.name b.name)

/-- C7: under any locale-aware comparison that is transitive and total
(as a collation order is), the country-selector list is a permutation of
the countries' entries in which every pair of adjacent entries has the
first's localized name less than or equal to the second's under that
comparison — the list is sorted ascending by localized display name. -/
theorem selectorList_sorted (locName : Country → String)
    (le : String → String → Bool) (countries : List Country)
    (htrans : ∀ a b c, le a b = true → le b c = true → le a c = true)
    (htot : ∀ a b, (le a b || le b a) = true) :
    (selectorList locName le countries).Perm
      (countries.map (fun c => ⟨c.id, locName c, overallScore c⟩)) ∧
    (selectorList locName le countries).Chain'
      (fun a b => le a.name b.name = true) := by
  refine ⟨List.mergeSort_perm _ _, ?_⟩
  have hs := @List.sorted_mergeSort RankEntry
    (fun a b : RankEntry => le a.name b.name)
    (fun a b c hab hbc => htrans a.name b.name c.name hab hbc)
    (fun a b => htot a.name b.name)
    (countries.map (fun c => ⟨c.id, locName c, overallScore c⟩))
  exact List.Pairwise.chain' hs

/-- C7 witness: `selectorList_sorted` instantiated at the sample
countries and the concrete comparison `sLE`. -/
theorem selectorList_sorted_witness :
    (∀ a b c, sLE a b = true → sLE b c = true → sLE a c = true) ∧
    (∀ a b, (sLE a b || sLE b a) = true) ∧
    ((selectorList Country.name sLE [c₀, c₁]).Perm
      ([c₀, c₁].map (fun c => ⟨c.id, c.name, overallScore c⟩)) ∧
    (selectorList Country.name sLE [c₀, c₁]).Chain'
      (fun a b => sLE a.name b.name = true)) :=
  ⟨sLE_trans, sLE_total,
    selectorList_sorted Country.name sLE [c₀, c₁] sLE_trans sLE_total⟩

/-- Modelled from the spec: `Data.getCountry` (data.js, not among the
provided sources) returns the record or an explicit not-found result. -/
def getCountry (s : Store) (id : String) : Option Country :=
  s.countries.find? (fun c => c.id == id)

/-- Modelled from the spec: `Data.getPillar` (data.js, not among the
provided sources) returns the record or an explicit not-found result. -/
def getPillar (s : Store) (id : String) : Option Pillar :=
  s.pillars.find? (fun p => p.id == id)

/-- Modelled from the spec: `Data.getPolitics` (data.js, not among the
provided sources) returns the record or an explicit not-found result. -/
def getPolitics (s : Store) (id : String) : Option PoliticsRecord :=
  s.politics.lookup id

/-- The country page output, reduced to the branch structure of
`renderCountry`: the explicit not-found paragraph or the rendered page. -/
inductive CountryPage where
  | notFound
  | page (name : String) (overall : ℤ)
deriving DecidableEq

/-- Embedded from `renderCountry` (src/js/app.js lines 234-241): a missing
country renders the not-found output; otherwise the page with the
localized name and overall score is rendered. -/
def renderCountryPage (locName : Country → String) (s : Store) (id : String) :
    CountryPage :=
  match getCountry s id with
  | none => CountryPage.notFound
  | some c => CountryPage.page (locName c) (overallScore c)

/-- The economic dashboard output, reduced to the branch structure of
`renderEconomicDashboard`: empty output or the dashboard for a record. -/
inductive EconDash where
  | empty
  | dashboard (e : EconomicsRecord)
deriving DecidableEq

/-- Embedded from `renderEconomicDashboard` (src/js/app.js lines 289-293):
a country with no economics record renders the empty output; otherwise
the dashboard for the record is rendered. -/
def renderEconDash (s : Store) (c : Country) : EconDash :=
  match getEconomics s c.id with
  | none => EconDash.empty
  | some e => EconDash.dashboard e

theorem lookup_eq_none_of_forall {α : Type} (l : List (String × α)) (k : String)
    (h : ∀ kv ∈ l, kv.1 ≠ k) : l.lookup k = none := by
  induction l with
  | nil => rfl
  | cons a rest ih =>
    obtain ⟨ak, av⟩ := a
    have hne : (k == ak) = false := by
      simp only [beq_eq_false_iff_ne, ne_eq]
      exact fun he => h (ak, av) (List.mem_cons_self _ _) he.symm
    simpa [List.lookup_cons, hne] using
      ih (fun kv hkv => h kv (List.mem_cons_of_mem _ hkv))

/-- C8: for an id with no record, every lookup operation returns the
explicit absent result `none` rather than failing — `getCountry`,
`getPillar`, `getEconomics` and `getPolitics` are total — and the callers
degrade gracefully: the country page renders the not-found output and the
economic dashboard renders the empty output. -/
theorem lookups_absent_spec (locName : Country → String) (s : Store)
    (id : String) (c : Country)
    (h1 : ∀ c' ∈ s.countries, c'.id ≠ id)
    (h2 : ∀ p ∈ s.pillars, p.id ≠ id)
    (h3 : ∀ kv ∈ s.economics, kv.1 ≠ id)
    (h4 : ∀ kv ∈ s.politics, kv.1 ≠ id)
    (h5 : ∀ kv ∈ s.economics, kv.1 ≠ c.id) :
    getCountry s id = none ∧ getPillar s id = none ∧
    getEconomics s id = none ∧ getPolitics s id = none ∧
    renderCountryPage locName s id = CountryPage.notFound ∧
    renderEconDash s c = EconDash.empty := by
  have hc : getCountry s id = none := by
    apply List.find?_eq_none.mpr
    intro x hx
    simpa using h1 x hx
  have hec : getEconomics s c.id = none :=
    lookup_eq_none_of_forall s.economics c.id h5
  refine ⟨hc, ?_, ?_, ?_, ?_, ?_⟩
  · apply List.find?_eq_none.mpr
    intro x hx
    simpa using h2 x hx
  · exact lookup_eq_none_of_forall s.economics id h3
  · exact lookup_eq_none_of_forall s.politics id h4
  · simp [renderCountryPage, hc]
  · simp [renderEconDash, hec]

/-- C8 witness: `lookups_absent_spec` instantiated at the sample store,
the absent id "zz" and the country `c₁`, which has no economics record. -/
theorem lookups_absent_spec_witness :
    (∀ c' ∈ s₀.countries, c'.id ≠ ("zz" : String)) ∧
    (∀ p ∈ s₀.pillars, p.id ≠ ("zz" : String)) ∧
    (∀ kv ∈ s₀.economics, kv.1 ≠ ("zz" : String)) ∧
    (∀ kv ∈ s₀.politics, kv.1 ≠ ("zz" : String)) ∧
    (∀ kv ∈ s₀.economics, kv.1 ≠ c₁.id) ∧
    (getCountry s₀ ("zz") = none ∧ getPillar s₀ ("zz") = none ∧
    getEconomics s₀ ("zz") = none ∧ getPolitics s₀ ("zz") = none ∧
    renderCountryPage Country.name s₀ ("zz") = CountryPage.notFound ∧
    renderEconDash s₀ c₁ = EconDash.empty) :=
  ⟨by decide, by decide, by decide, by decide, by decide,
    lookups_absent_spec Country.name s₀ ("zz") c₁
      (by decide) (by decide) (by decide) (by decide) (by decide)⟩

/-- The scalar statistics of `renderGovernanceBar` (src/js/app.js lines
42-74): the regime counts object and the three averages, with the
`toFixed(1)` display kept in tenths. -/
structure GovStats where
  regimeCounts : List (String × ℕ)
  avgDemocracyTenths : ℤ
  avgCorruption : ℤ
  avgPress : ℤ
deriving DecidableEq

/-- Embedded from `renderGovernanceBar` as a state-passing call: the
function reads the politics map from the store, computes the regime
counts and the three averages, and hands back the store it leaves
behind — the embedded body contains no write to the store. -/
def govBarCall (s : Store) : GovStats × Store :=
  (⟨countRegimes (s.politics.map Prod.snd),
    toFixed1 (((s.politics.map Prod.snd).map PoliticsRecord.democracy_score).sum /
      ((s.politics.map Prod.snd).length : ℚ)),
    jsRound ((((s.politics.map Prod.snd).map PoliticsRecord.corruption_rank).sum : ℚ) /
      ((s.politics.map Prod.snd).length : ℚ)),
    jsRound ((((s.politics.map Prod.snd).map PoliticsRecord.press_freedom_rank).sum : ℚ) /
      ((s.politics.map Prod.snd).length : ℚ))⟩, s)

/-- Embedded from `renderGlobalEconBar` (src/js/app.js lines 146-182) as a
state-passing call, analogous to `govBarCall`. -/
def econBarCall (s : Store) : GlobalEconStats × Store :=
  (renderGlobalEconStats s, s)

/-- The ranking aggregation as a state-passing call on the store. -/
def rankingCall (locName : Country → String) (le : String → String → Bool)
    (s : Store) (pid : String) : List RankEntry × Store :=
  (ranking locName le s.countries pid, s)

/-- C9: the aggregation calls are deterministic and side-effect-free —
each call returns the store unchanged, and a second call on the store
left behind by the first yields exactly the same output, numeric values
and ordering included. -/
theorem aggregations_idempotent (locName : Country → String)
    (le : String → String → Bool) (s : Store) (pid : String) :
    (govBarCall ((govBarCall s).2)).1 = (govBarCall s).1 ∧
    (govBarCall s).2 = s ∧
    (econBarCall ((econBarCall s).2)).1 = (econBarCall s).1 ∧
    (econBarCall s).2 = s ∧
    (rankingCall locName le ((rankingCall locName le s pid).2) pid).1 =
      (rankingCall locName le s pid).1 ∧
    (rankingCall locName le s pid).2 = s :=
  ⟨rfl, rfl, rfl, rfl, rfl, rfl⟩

/-- An overview or pillar card: the pillar id it links to, its name key,
and the displayed global average. -/
structure PillarCard where
  pid : String
  name_key : String
  avg : ℤ
deriving DecidableEq

/-- Embedded from `renderOverviewCards` (src/js/app.js lines 184-205):
`pillars.slice(0, 6)` mapped to cards showing `avgs[p.id] || 0`, the
global average for the pillar (`Data.getGlobalAverages` modelled as
`globalAverage`). -/
def overviewCards (s : Store) : List PillarCard :=
  (s.pillars.take 6).map
    (fun p => ⟨p.id, p.name_key, globalAverage s.countries p.id⟩)

/-- Embedded from `renderPillarCards` (src/js/app.js lines 207-226): every
pillar mapped to a card, in declaration order. -/
def pillarCardsAll (s : Store) : List PillarCard :=
  s.pillars.map (fun p => ⟨p.id, p.name_key, globalAverage s.countries p.id⟩)

/-- C10: for a pillar list of length n with distinct pillar ids, the
overview section renders exactly min(n, 6) cards, those cards are an
initial segment of the full pillar-card list (so the first pillars in
declaration order), no pillar beyond the sixth appears among the overview
cards, and every pillar beyond the sixth does appear in the full
pillar-cards section. -/
theorem overviewCards_spec (s : Store)
    (hnd : (s.pillars.map Pillar.id).Nodup) :
    (overviewCards s).length = min s.pillars.length 6 ∧
    (∃ t, pillarCardsAll s = overviewCards s ++ t) ∧
    (∀ p ∈ s.pillars.drop 6, ∀ card ∈ overviewCards s, card.pid ≠ p.id) ∧
    (∀ p ∈ s.pillars.drop 6, ∃ card ∈ pillarCardsAll s, card.pid = p.id) := by
  refine ⟨?_, ?_, ?_, ?_⟩
  · simp [overviewCards, Nat.min_comm]
  · refine ⟨(s.pillars.drop 6).map
      (fun p => ⟨p.id, p.name_key, globalAverage s.countries p.id⟩), ?_⟩
    rw [overviewCards, pillarCardsAll, ← List.map_append, List.take_append_drop]
  · intro p hp card hcard heq
    rcases List.mem_map.mp hcard with ⟨q, hq, rfl⟩
    have hsplit : s.pillars.map Pillar.id =
        (s.pillars.take 6).map Pillar.id ++ (s.pillars.drop 6).map Pillar.id := by
      rw [← List.map_append, List.take_append_drop]
    rw [hsplit] at hnd
    have hdisj := (List.nodup_append.mp hnd).2.2
    have heq' : q.id = p.id := heq
    exact hdisj (List.mem_map_of_mem Pillar.id hq)
      (heq' ▸ List.mem_map_of_mem Pillar.id hp)
  · intro p hp
    exact ⟨⟨p.id, p.name_key, globalAverage s.countries p.id⟩,
      List.mem_map_of_mem _ (List.mem_of_mem_drop hp), rfl⟩

/-- A store with seven pillars and no countries, exercising the slice at
six. -/
def s₇ : Store :=
  ⟨[], [⟨"p1", "n1", "d1", "i1", "c1"⟩, ⟨"p2", "n2", "d2", "i2", "c2"⟩,
      ⟨"p3", "n3", "d3", "i3", "c3"⟩, ⟨"p4", "n4", "d4", "i4", "c4"⟩,
      ⟨"p5", "n5", "d5", "i5", "c5"⟩, ⟨"p6", "n6", "d6", "i6", "c6"⟩,
      ⟨"p7", "n7", "d7", "i7", "c7"⟩], [], []⟩

/-- C10 witness: `overviewCards_spec` instantiated at the seven-pillar
store. -/
theorem overviewCards_spec_witness :
    (s₇.pillars.map Pillar.id).Nodup ∧
    ((overviewCards s₇).length = min s₇.pillars.length 6 ∧
    (∃ t, pillarCardsAll s₇ = overviewCards s₇ ++ t) ∧
    (∀ p ∈ s₇.pillars.drop 6, ∀ card ∈ overviewCards s₇, card.pid ≠ p.id) ∧
    (∀ p ∈ s₇.pillars.drop 6, ∃ card ∈ pillarCardsAll s₇, card.pid = p.id)) :=
  ⟨by decide, overviewCards_spec s₇ (by decide)⟩

end GPB
